import Mathlib

/-!
Shallow embedding of the data-quality and statistical-analysis engine of the
Malaga reservoirs weather-data repository
(`src/data_processing/cleaner.py`, `src/data_processing/validator.py`,
`src/analysis/exploratory.py`), together with theorems settling the
specification claims about it.

Modelling conventions:
* pandas cells of numeric columns are `Option ℚ` (`none` models `NaN`);
  exact rationals replace IEEE floats, so every arithmetic step of the
  source is mirrored exactly rather than approximately;
* calendar dates are integers counting days (the sources only ever subtract
  dates and compare them, so a day count is a faithful image of a
  `datetime64[ns]` value at midnight);
* a DataFrame is embedded by the columns the modelled functions touch;
  pandas row labels are carried as explicit `idx`/position fields;
* `sort_values` is modelled by a stable insertion sort on the same key.
-/

set_option maxHeartbeats 1600000

namespace MalagaReservoirs

/-! ## Cleaner: `ReservoirDataCleaner.clean_numeric_columns` -/

/-- Rounding of a rational to an integer, ties to even
(the rule used by `numpy`/pandas `round`). -/
def roundHalfEven (q : ℚ) : ℤ :=
  let f := Int.floor q
  let frac := q - f
  if frac < 1/2 then f
  else if 1/2 < frac then f + 1
  else if f % 2 = 0 then f else f + 1

/-- Rounding to `d` decimal places: `Series.round(d)` on an exact rational. -/
def roundTo (d : ℕ) (x : ℚ) : ℚ :=
  ((roundHalfEven (x * 10 ^ d) : ℤ) : ℚ) / 10 ^ d

/-- The fixed `numeric_columns` list of `clean_numeric_columns`. -/
def numericColumns : List String :=
  ["embalse_reserva", "embalse_porcentaje",
   "meteo_temp_max", "meteo_temp_min", "meteo_temp_media",
   "meteo_humedad_max", "meteo_humedad_min", "meteo_humedad_media",
   "meteo_vel_viento", "meteo_vel_viento_max", "meteo_dir_viento",
   "meteo_radiacion", "meteo_precipitacion"]

/-- Containment of one character list in another, scanning left to right. -/
def infixOfB (sub : List Char) : List Char → Bool
  | [] => sub.isEmpty
  | c :: cs => sub.isPrefixOf (c :: cs) || infixOfB sub cs

/-- Python `sub in s` substring test. -/
def substrOf (sub s : String) : Bool :=
  infixOfB sub.toList s.toList

/-- The `if col in [...] / elif 'temp' in col / ...` precision dispatch of
`clean_numeric_columns`, in source order.  `none` means no branch fires and
the column is left unrounded. -/
def roundPrecision (col : String) : Option ℕ :=
  if col = "embalse_reserva" then some 3
  else if col = "embalse_porcentaje" then some 1
  else if substrOf "temp" col then some 2
  else if substrOf "humedad" col then some 1
  else if substrOf "viento" col || substrOf "dir_viento" col then some 2
  else if col = "meteo_radiacion" || col = "meteo_precipitacion" then some 2
  else none

/-- A cleaner-stage frame: entity code column, date column, and the numeric
columns by name.  Cells of numeric columns are `Option ℚ` (`none` = `NaN`). -/
structure CFrame where
  codes : List String
  dates : List ℤ
  numCols : List (String × List (Option ℚ))
deriving DecidableEq

/-- Rounding applied to one named column: `pd.to_numeric(..., errors='coerce')`
(the identity on an already-numeric `Option ℚ` cell, `NaN` staying `NaN`)
followed by the per-family `round`.  Columns outside the fixed
`numeric_columns` list are untouched. -/
def cleanColumn (c : String × List (Option ℚ)) : String × List (Option ℚ) :=
  if c.1 ∈ numericColumns then
    match roundPrecision c.1 with
    | some d => (c.1, c.2.map (Option.map (roundTo d)))
    | none => c
  else c

/-- `ReservoirDataCleaner.clean_numeric_columns`. -/
def clean_numeric_columns (df : CFrame) : CFrame :=
  ⟨df.codes, df.dates, df.numCols.map cleanColumn⟩

/-! ## Cleaner: `ReservoirDataCleaner.handle_missing_values` -/

/-- One column under `Series.interpolate(method='time')` as the source calls
it.  Pandas first returns the column unchanged when it has no missing value,
or no valid value, to fill; otherwise it validates the series' index, and on
this repository's frames — always carrying the default `RangeIndex`, since the
loader never sets an index — that validation raises
`ValueError: time-weighted interpolation only works on Series or DataFrames
with a DatetimeIndex`.  No value is ever filled. -/
def interpolateTimeCol (vals : List (Option ℚ)) : Except String (List (Option ℚ)) :=
  if (vals.any fun c => c.isNone) && (vals.any fun c => c.isSome) then
    Except.error "ValueError: time-weighted interpolation only works on Series or DataFrames with a DatetimeIndex"
  else Except.ok vals

/-- The `for col in numeric_columns: df_filled[col] = df_filled[col].interpolate(...)`
loop: columns are processed left to right and the first raising column aborts
the call. -/
def interpolateColumns :
    List (String × List (Option ℚ)) → Except String (List (String × List (Option ℚ)))
  | [] => Except.ok []
  | c :: cs =>
    match interpolateTimeCol c.2 with
    | Except.error e => Except.error e
    | Except.ok v =>
      match interpolateColumns cs with
      | Except.error e => Except.error e
      | Except.ok rest => Except.ok ((c.1, v) :: rest)

/-- Latest-dated observation among dated valid values. -/
def latestOf (l : List (ℤ × ℚ)) : Option (ℤ × ℚ) :=
  l.foldl (fun acc p => match acc with
    | none => some p
    | some q => if q.1 < p.1 then some p else some q) none

/-- Earliest-dated observation among dated valid values. -/
def earliestOf (l : List (ℤ × ℚ)) : Option (ℤ × ℚ) :=
  l.foldl (fun acc p => match acc with
    | none => some p
    | some q => if p.1 < q.1 then some p else some q) none

/-- Modelled from the spec: section 4.1's `interpolate` strategy, the
behaviour the source's strategy was meant to have (the source raises
instead): fill each gap by time-weighted linear interpolation between the
nearest valid observations of the owning entity only, along that entity's own
chronological axis; a missing value without valid same-entity data on both
sides stays missing. -/
def interpolateEntitySpec (codes : List String) (dates : List ℤ)
    (vals : List (Option ℚ)) : List (Option ℚ) :=
  (List.range vals.length).map (fun i =>
    match vals.getD i none with
    | some v => some v
    | none =>
      let di := dates.getD i 0
      let ent := (List.range vals.length).filterMap (fun j =>
        if codes.getD j "" = codes.getD i "" then
          (vals.getD j none).map (fun v => (dates.getD j 0, v))
        else none)
      match latestOf (ent.filter (fun p => p.1 < di)),
            earliestOf (ent.filter (fun p => di < p.1)) with
      | some pv, some nv =>
          some (pv.2 + (nv.2 - pv.2) * (((di - pv.1 : ℤ) : ℚ) / ((nv.1 - pv.1 : ℤ) : ℚ)))
      | _, _ => none)

/-- `fillna(method='ffill')` over one column. -/
def ffillGo (prev : Option ℚ) : List (Option ℚ) → List (Option ℚ)
  | [] => []
  | c :: cs =>
    match c with
    | some v => some v :: ffillGo (some v) cs
    | none => prev :: ffillGo prev cs

/-- Row positions kept by `dropna()`: rows with no missing numeric cell. -/
def keepRows (df : CFrame) : List ℕ :=
  (List.range df.dates.length).filter
    (fun i => df.numCols.all (fun c => (c.2.getD i none).isSome))

/-- `DataFrame.dropna()`. -/
def dropnaFrame (df : CFrame) : CFrame :=
  ⟨(keepRows df).map (fun i => df.codes.getD i ""),
   (keepRows df).map (fun i => df.dates.getD i 0),
   df.numCols.map (fun c => (c.1, (keepRows df).map (fun i => c.2.getD i none)))⟩

/-- `ReservoirDataCleaner.handle_missing_values`.  The `interpolate` branch
can raise (see `interpolateTimeCol`), so the model is `Except`-valued; the
other branches never raise.  A strategy string matching none of the three
`if/elif` branches leaves the frame unmodified. -/
def handle_missing_values (df : CFrame) (strategy : String) : Except String CFrame :=
  if strategy = "interpolate" then
    (interpolateColumns df.numCols).map (fun cols => ⟨df.codes, df.dates, cols⟩)
  else if strategy = "forward_fill" then
    Except.ok ⟨df.codes, df.dates, df.numCols.map (fun c => (c.1, ffillGo none c.2))⟩
  else if strategy = "drop" then Except.ok (dropnaFrame df)
  else Except.ok df

/-! ## Cleaner: `ReservoirDataCleaner.remove_duplicates` -/

/-- One observation row as the duplicate-removal and reservoir-consistency
code sees it: pandas row label, entity code, date and storage percentage. -/
structure RRow where
  idx : ℕ
  codigo : String
  date : ℤ
  pct : Option ℚ
deriving DecidableEq

/-- The `subset=['date', 'embalse_codigo']` duplicate key. -/
def rkey (r : RRow) : ℤ × String := (r.date, r.codigo)

/-- Work loop of `drop_duplicates(..., keep='first')`: keep a row iff its key
was not seen earlier. -/
def dropDupsGo (seen : List (ℤ × String)) : List RRow → List RRow
  | [] => []
  | r :: rs =>
    if rkey r ∈ seen then dropDupsGo seen rs
    else r :: dropDupsGo (rkey r :: seen) rs

/-- `ReservoirDataCleaner.remove_duplicates`. -/
def remove_duplicates (rows : List RRow) : List RRow :=
  dropDupsGo [] rows

/-! ## Validator: `DataValidator.check_temporal_consistency` -/

/-- `Series.min()` over a non-null date column (0 on an empty frame, a case no
claim touches). -/
def seriesMin (dates : List ℤ) : ℤ :=
  match dates with
  | [] => 0
  | d :: ds => ds.foldl min d

/-- `Series.max()` over a non-null date column. -/
def seriesMax (dates : List ℤ) : ℤ :=
  match dates with
  | [] => 0
  | d :: ds => ds.foldl max d

/-- The fields of the `check_temporal_consistency` result dictionary that the
claims are about.  The gap statistics (`median_gap_days`, `max_gap_days`) and
the constant `missing_days` entry are not consulted by any claim and are not
embedded. -/
structure TemporalReport where
  dateRangeLo : ℤ
  dateRangeHi : ℤ
  totalDays : ℤ
  uniqueDates : ℕ
  duplicateDates : ℤ
deriving DecidableEq

/-- `DataValidator.check_temporal_consistency`: `total_days` is
`(df['date'].max() - df['date'].min()).days`, `unique_dates` is `nunique()`,
`duplicate_dates` is `len(df) - nunique()`. -/
def check_temporal_consistency (dates : List ℤ) : TemporalReport :=
  ⟨seriesMin dates, seriesMax dates,
   seriesMax dates - seriesMin dates,
   dates.dedup.length,
   (dates.length : ℤ) - dates.dedup.length⟩

/-! ## Validator: `DataValidator.validate_weather_consistency` -/

/-- Pandas `Series > Series` on two nullable cells: `NaN` compares `False`. -/
def optGT (a b : Option ℚ) : Bool :=
  match a, b with
  | some x, some y => decide (y < x)
  | _, _ => false

/-- A weather row: pandas row label and the six temperature/humidity cells and
two wind-speed cells consulted by `validate_weather_consistency`. -/
structure WRow where
  idx : ℕ
  tmin : Option ℚ
  tmed : Option ℚ
  tmax : Option ℚ
  hmin : Option ℚ
  hmed : Option ℚ
  hmax : Option ℚ
  wvel : Option ℚ
  wvelmax : Option ℚ
deriving DecidableEq

/-- A weather frame.  Each Boolean is the value of the corresponding
`all(col in df.columns for col in [...])` guard of the source: whether the
whole column group named in that guard is present. -/
structure WFrame where
  rows : List WRow
  hasTempCols : Bool
  hasHumCols : Bool
  hasWindCols : Bool
deriving DecidableEq

/-- `DataValidator.validate_weather_consistency`: each rule is added to the
result dictionary only when its column group is present; a violating row has
`min > mean` or `mean > max` (wind: `mean speed > max speed`). -/
def validate_weather_consistency (df : WFrame) : List (String × List ℕ) :=
  (if df.hasTempCols then
    [("temperature_order",
      (df.rows.filter (fun r => optGT r.tmin r.tmed || optGT r.tmed r.tmax)).map WRow.idx)]
   else [])
  ++ (if df.hasHumCols then
    [("humidity_order",
      (df.rows.filter (fun r => optGT r.hmin r.hmed || optGT r.hmed r.hmax)).map WRow.idx)]
   else [])
  ++ (if df.hasWindCols then
    [("wind_speed_order",
      (df.rows.filter (fun r => optGT r.wvel r.wvelmax)).map WRow.idx)]
   else [])

/-! ## Validator: `DataValidator.check_reservoir_consistency` -/

/-- A reservoir frame: the rows plus one presence flag per column the function
touches (`embalse_porcentaje`, and the `embalse_codigo`/`date` sort columns).
When a flag is `false` the corresponding row fields are never consulted. -/
structure RFrame where
  rows : List RRow
  hasPct : Bool
  hasCodigo : Bool
  hasDate : Bool
deriving DecidableEq

/-- `df.sort_values(['embalse_codigo', 'date'])`: stable sort by the
lexicographic (entity code, date) key. -/
def sortRC (rows : List RRow) : List RRow :=
  rows.insertionSort
    (fun a b => a.codigo < b.codigo ∨ (a.codigo = b.codigo ∧ a.date ≤ b.date))

/-- `groupby('embalse_codigo')['embalse_porcentaje'].diff()` walked over the
sorted rows: the difference with the directly preceding row when that row has
the same entity code and both cells are non-missing, `NaN` otherwise (in
particular on the first row of every entity group). -/
def withDiff (prev : Option RRow) : List RRow → List (RRow × Option ℚ)
  | [] => []
  | r :: rs =>
    (r,
      match prev with
      | some p =>
        if p.codigo = r.codigo then
          match p.pct, r.pct with
          | some a, some b => some (b - a)
          | _, _ => none
        else none
      | none => none) :: withDiff (some r) rs

/-- Row labels with `percentage_change.abs() > 20` (a `NaN` change never
satisfies the comparison). -/
def extremeChanges (rows : List RRow) : List ℕ :=
  ((withDiff none (sortRC rows)).filter
    (fun pr => match pr.2 with | some d => decide (20 < |d|) | none => false)).map
    (fun pr => pr.1.idx)

/-- `DataValidator.check_reservoir_consistency`.  The source indexes
`df['embalse_porcentaje']` and sorts on `['embalse_codigo', 'date']` with no
presence guard, so a missing column surfaces as a pandas `KeyError`,
modelled as `Except.error`. -/
def check_reservoir_consistency (df : RFrame) :
    Except String (List (String × List ℕ)) :=
  if df.hasPct = false then Except.error "KeyError: embalse_porcentaje"
  else if df.hasCodigo = false ∨ df.hasDate = false then
    Except.error "KeyError: embalse_codigo or date"
  else
    Except.ok
      [("percentage_out_of_bounds",
        (df.rows.filter
          (fun r => match r.pct with
            | some v => decide (v < 0 ∨ 100 < v)
            | none => false)).map RRow.idx),
       ("extreme_percentage_changes", extremeChanges df.rows)]

/-! ## Analyzer: `ExploratoryAnalyzer.trend_analysis` -/

/-- An analyzer frame for one target variable: rows of (date, variable cell). -/
abbrev AFrame : Type := List (ℤ × Option ℚ)

/-- `df.sort_values('date')`: stable sort by date. -/
def sortByDate (rows : AFrame) : AFrame :=
  rows.insertionSort (fun a b => a.1 ≤ b.1)

/-- Elapsed-days regressor of `trend_analysis`:
`(df['date'] - df['date'].min()).dt.days`, one entry per row of the frame. -/
def timeIndex (rows : AFrame) : List ℚ :=
  rows.map (fun r => ((r.1 - seriesMin (rows.map Prod.fst) : ℤ) : ℚ))

/-- Result of `scipy.stats.linregress` that the claims consult: slope and
intercept of the least-squares line.  (The correlation-based outputs
`r_value`, `p_value`, `std_err` need transcendental functions and are not
embedded; no claim depends on their values.)  `linregress` rejects empty
input, input arrays of different lengths (the arithmetic on misaligned
`numpy` arrays fails to broadcast), and a constant regressor. -/
def linregress (x y : List ℚ) : Except String (ℚ × ℚ) :=
  if x.length = 0 ∨ y.length = 0 then Except.error "Inputs must not be empty."
  else if x.length ≠ y.length then Except.error "operands could not be broadcast together"
  else
    let n : ℚ := x.length
    let xm := x.sum / n
    let ym := y.sum / n
    let ssxx := (x.map (fun a => (a - xm) ^ 2)).sum / n
    let ssxy := ((x.zip y).map (fun p => (p.1 - xm) * (p.2 - ym))).sum / n
    if ssxx = 0 then Except.error "Cannot calculate a linear regression if all x values are identical"
    else Except.ok (ssxy / ssxx, ym - ssxy / ssxx * xm)

/-- Integer-valued `np.sign` of an exact rational. -/
def qsign (q : ℚ) : ℤ :=
  if 0 < q then 1 else if q < 0 then -1 else 0

/-- Mann-Kendall `S` statistic exactly as the source's double loop
`for i in range(n-1): for j in range(i+1, n): S += np.sign(...)`, with
`range(a, b)` embedded as `List.range' a (b - a)`. -/
def mkS (values : List ℚ) : ℤ :=
  (List.range (values.length - 1)).foldl
    (fun S i =>
      (List.range' (i + 1) (values.length - (i + 1))).foldl
        (fun S j => S + qsign (values.getD j 0 - values.getD i 0)) S)
    0

/-- The source's simplified variance `n * (n-1) * (2*n+5) / 18`. -/
def mkVarS (n : ℕ) : ℚ :=
  (n : ℚ) * ((n : ℚ) - 1) * (2 * (n : ℚ) + 5) / 18

/-- Numerator of the source's `z` statistic (`S - 1`, `S + 1` or `0` by the
sign of `S`); the source divides it by the floating `sqrt(var_s)`, which the
theorems state with `Real.sqrt` over this exact numerator. -/
def mkZnum (S : ℤ) : ℤ :=
  if 0 < S then S - 1 else if S < 0 then S + 1 else 0

/-- The source's trend label:
`'increasing' if S > 0 else 'decreasing' if S < 0 else 'no trend'`. -/
def mkTrend (values : List ℚ) : String :=
  if 0 < mkS values then "increasing"
  else if mkS values < 0 then "decreasing"
  else "no trend"

/-- The entries of the `trend_analysis` result dictionary that the claims
consult (`annual` is `slope * 365.25`).  `empty` is the dictionary `{}` that
is returned when no method branch fires. -/
inductive TrendOut where
  | linear (slope intercept annual : ℚ)
  | mannKendall (S : ℤ) (trend : String)
  | empty
deriving DecidableEq

/-- `ExploratoryAnalyzer.trend_analysis`.  The `linear` branch passes the
full-length `df['time_index']` column and the length-shortened
`df[variable].dropna()` to `linregress`, exactly as the source does; the
`mann_kendall` branch runs on the date-sorted, missing-dropped values. -/
def trend_analysis (rows : AFrame) (method : String) : Except String TrendOut :=
  let sorted := sortByDate rows
  if method = "linear" then
    (linregress (timeIndex sorted) ((sorted.map Prod.snd).filterMap id)).map
      (fun p => TrendOut.linear p.1 p.2 (p.1 * (1461 / 4)))
  else if method = "mann_kendall" then
    let values := (sorted.map Prod.snd).filterMap id
    Except.ok (TrendOut.mannKendall (mkS values) (mkTrend values))
  else Except.ok TrendOut.empty

/-- Modelled from the spec: the linear trend as section 4.3 words it, an
ordinary least-squares regression of the variable against elapsed days "on
available (non-missing) values only", each retained value paired with its own
row's elapsed-days coordinate.  Used only to exhibit the divergence from the
source's misaligned `linregress` call. -/
def linearTrendSpec (rows : AFrame) : Except String (ℚ × ℚ) :=
  let sorted := sortByDate rows
  let pairs := sorted.filterMap
    (fun r => r.2.map (fun v => (((r.1 - seriesMin (sorted.map Prod.fst) : ℤ) : ℚ), v)))
  linregress (pairs.map Prod.fst) (pairs.map Prod.snd)

/-! ## Analyzer: `ExploratoryAnalyzer.extreme_events_analysis` -/

/-- Ascending sort of the non-null sample, as pandas `quantile` ranks it. -/
def sortQ (l : List ℚ) : List ℚ :=
  l.insertionSort (fun a b => a ≤ b)

/-- Pandas `Series.quantile(q)` with the default linear interpolation over the
ascending non-null sample `l`: with `h = q * (n - 1)`, the value
`l[floor h] + (h - floor h) * (l[floor h + 1] - l[floor h])`. -/
def quantileLinear (l : List ℚ) (q : ℚ) : ℚ :=
  let i := (Int.floor (q * ((l.length : ℚ) - 1))).toNat
  let frac := q * ((l.length : ℚ) - 1) - Int.floor (q * ((l.length : ℚ) - 1))
  l.getD i 0 + frac * (l.getD (i + 1) (l.getD i 0) - l.getD i 0)

/-- An extreme-events frame for one variable: rows of (row label, cell). -/
abbrev EFrame : Type := List (ℕ × Option ℚ)

/-- The threshold of `extreme_events_analysis`:
`df[variable].quantile(threshold_percentile / 100)`. -/
def eThreshold (rows : EFrame) (percentile : ℚ) : ℚ :=
  quantileLinear (sortQ ((rows.map Prod.snd).filterMap id)) (percentile / 100)

/-- The `extreme_events = df[df[variable] > threshold]` selection (a `NaN`
cell never satisfies the strict comparison). -/
def extreme_events (rows : EFrame) (percentile : ℚ) : EFrame :=
  rows.filter
    (fun r => match r.2 with
      | some v => decide (eThreshold rows percentile < v)
      | none => false)

/-- The `num_extreme_events` entry of the result dictionary. -/
def num_extreme_events (rows : EFrame) (percentile : ℚ) : ℕ :=
  (extreme_events rows percentile).length

/-! ## Concrete datasets used by counterexamples and witnesses -/

/-- Two observation dates spanning three calendar days inclusive. -/
def c1ExDates : List ℤ := [0, 2]

/-- Three dates, one duplicated. -/
def c1WitDates : List ℤ := [0, 2, 2]

/-- Two entities A and B; B's first observation (date 2) has a missing
percentage, with no earlier B data, and A has a value at date 1. -/
def c2ExFrame : CFrame :=
  ⟨["A", "B", "B"], [1, 2, 3], [("embalse_porcentaje", [some 0, none, some 4])]⟩

/-- A frame whose `embalse_porcentaje` column is absent. -/
def c3ExRFrame : RFrame := ⟨[⟨0, "A", 0, some 50⟩], false, true, true⟩

/-- A frame with none of the weather column groups present. -/
def c3ExWFrame : WFrame :=
  ⟨[⟨0, some 35, some 20, some 25, none, none, none, none, none⟩], false, false, false⟩

/-- A one-row cleaner frame. -/
def c4ExFrame : CFrame := ⟨["A"], [0], [("embalse_porcentaje", [some 1])]⟩

/-- A one-row analyzer frame. -/
def c4ExRows : AFrame := [(0, some 1)]

/-- Three rows, the first two sharing the (entity, date) key with different
values. -/
def c7ExRows : List RRow :=
  [⟨0, "A", 5, some 10⟩, ⟨1, "A", 5, some 99⟩, ⟨2, "B", 5, some 7⟩]

/-- The specification's outlier sample as an extreme-events column. -/
def c8ExRows : EFrame :=
  [(0, some 1), (1, some 2), (2, some 3), (3, some 4), (4, some 100)]

/-- Three daily rows whose middle value is missing. -/
def c9ExRows : AFrame := [(0, some 1), (1, none), (2, some 3)]

/-- One entity with a 50-point jump between its two rows. -/
def c10ExRows : List RRow := [⟨0, "A", 0, some 10⟩, ⟨1, "A", 1, some 60⟩]

/-! ## Helper lemmas -/

theorem foldl_max_mem (d : ℤ) (ds : List ℤ) : ds.foldl max d ∈ d :: ds := by
  induction ds generalizing d with
  | nil => simp
  | cons e es ih =>
    rw [List.foldl_cons]
    rcases List.mem_cons.mp (ih (max d e)) with h' | h'
    · rcases max_choice d e with hde | hde
      · rw [h', hde]; exact List.mem_cons_self _ _
      · rw [h', hde]; exact List.mem_cons_of_mem _ (List.mem_cons_self _ _)
    · exact List.mem_cons_of_mem _ (List.mem_cons_of_mem _ h')

theorem le_foldl_max (d : ℤ) (ds : List ℤ) : ∀ x ∈ d :: ds, x ≤ ds.foldl max d := by
  induction ds generalizing d with
  | nil => intro x hx; simp at hx; simp [hx]
  | cons e es ih =>
    intro x hx
    rcases List.mem_cons.mp hx with h' | h'
    · exact le_trans (h' ▸ le_max_left d e) (ih (max d e) _ (List.mem_cons_self _ _))
    · rcases List.mem_cons.mp h' with h'' | h''
      · exact le_trans (h'' ▸ le_max_right d e) (ih (max d e) _ (List.mem_cons_self _ _))
      · exact ih (max d e) x (List.mem_cons_of_mem _ h'')

theorem foldl_min_mem (d : ℤ) (ds : List ℤ) : ds.foldl min d ∈ d :: ds := by
  induction ds generalizing d with
  | nil => simp
  | cons e es ih =>
    rw [List.foldl_cons]
    rcases List.mem_cons.mp (ih (min d e)) with h' | h'
    · rcases min_choice d e with hde | hde
      · rw [h', hde]; exact List.mem_cons_self _ _
      · rw [h', hde]; exact List.mem_cons_of_mem _ (List.mem_cons_self _ _)
    · exact List.mem_cons_of_mem _ (List.mem_cons_of_mem _ h')

theorem foldl_min_le (d : ℤ) (ds : List ℤ) : ∀ x ∈ d :: ds, ds.foldl min d ≤ x := by
  induction ds generalizing d with
  | nil => intro x hx; simp at hx; simp [hx]
  | cons e es ih =>
    intro x hx
    rcases List.mem_cons.mp hx with h' | h'
    · exact le_trans (ih (min d e) _ (List.mem_cons_self _ _)) (h' ▸ min_le_left d e)
    · rcases List.mem_cons.mp h' with h'' | h''
      · exact le_trans (ih (min d e) _ (List.mem_cons_self _ _)) (h'' ▸ min_le_right d e)
      · exact ih (min d e) x (List.mem_cons_of_mem _ h'')

theorem seriesMax_eq (dates : List ℤ) (M : ℤ) (hM : M ∈ dates)
    (hub : ∀ d ∈ dates, d ≤ M) : seriesMax dates = M := by
  cases dates with
  | nil => simp at hM
  | cons d ds =>
    refine le_antisymm (hub _ (foldl_max_mem d ds)) (le_foldl_max d ds M hM)

theorem seriesMin_eq (dates : List ℤ) (m : ℤ) (hm : m ∈ dates)
    (hlb : ∀ d ∈ dates, m ≤ d) : seriesMin dates = m := by
  cases dates with
  | nil => simp at hm
  | cons d ds =>
    refine le_antisymm (foldl_min_le d ds m hm) (hlb _ (foldl_min_mem d ds))

/-! ## Claim theorems -/

/-- C1 counterexample: on the dataset with dates 0 and 2 the source's
`total_days` is `max - min = 2`, not the inclusive day count
`(max - min) + 1 = 3` the claim states. -/
theorem c1_counterexample :
    ¬ ((check_temporal_consistency c1ExDates).totalDays =
        (seriesMax c1ExDates - seriesMin c1ExDates) + 1) := by
  decide

/-- C1 amended: `check_temporal_consistency` returns `total_days` equal to the
difference `max - min` of the date span (the exclusive day count, one less
than the inclusive count), `unique_dates` equal to the number of distinct
dates, and `duplicate_dates` equal to total rows minus unique dates. -/
theorem c1_totalDays_exclusive (dates : List ℤ) (M m : ℤ)
    (hM : M ∈ dates) (hub : ∀ d ∈ dates, d ≤ M)
    (hm : m ∈ dates) (hlb : ∀ d ∈ dates, m ≤ d) :
    (check_temporal_consistency dates).totalDays = M - m ∧
    (check_temporal_consistency dates).uniqueDates = dates.toFinset.card ∧
    (check_temporal_consistency dates).duplicateDates =
      (dates.length : ℤ) - dates.toFinset.card := by
  refine ⟨?_, ?_, ?_⟩
  · show seriesMax dates - seriesMin dates = M - m
    rw [seriesMax_eq dates M hM hub, seriesMin_eq dates m hm hlb]
  · show dates.dedup.length = dates.toFinset.card
    exact (List.card_toFinset dates).symm
  · show (dates.length : ℤ) - dates.dedup.length = (dates.length : ℤ) - dates.toFinset.card
    rw [List.card_toFinset]

/-- C1 witness: the amended statement evaluated on the dates 0, 2, 2. -/
theorem c1_witness :
    (2 ∈ c1WitDates ∧ 0 ∈ c1WitDates) ∧
    (check_temporal_consistency c1WitDates).totalDays = 2 - 0 ∧
    (check_temporal_consistency c1WitDates).uniqueDates = c1WitDates.toFinset.card ∧
    (check_temporal_consistency c1WitDates).duplicateDates =
      (c1WitDates.length : ℤ) - c1WitDates.toFinset.card :=
  ⟨⟨by decide, by decide⟩,
   c1_totalDays_exclusive c1WitDates 2 0 (by decide) (by decide) (by decide) (by decide)⟩

/-- C2: on a frame where entity B's first percentage cell (date 2) is missing
and entity A has the value 0 at date 1, the source's `interpolate` strategy
raises a `ValueError` (time-weighted interpolation needs a `DatetimeIndex`,
and this repository's frames carry a `RangeIndex`), filling nothing, whereas
the specified per-entity interpolation leaves B's boundary gap unfilled and
every present value unchanged. -/
theorem c2_interpolate_raises_not_fills :
    handle_missing_values c2ExFrame "interpolate" =
      Except.error "ValueError: time-weighted interpolation only works on Series or DataFrames with a DatetimeIndex" ∧
    interpolateEntitySpec c2ExFrame.codes c2ExFrame.dates [some 0, none, some 4] =
      [some 0, none, some 4] ∧
    c2ExFrame.codes.getD 0 "" = "A" ∧ c2ExFrame.codes.getD 1 "" = "B" :=
  ⟨rfl, rfl, rfl, rfl⟩

/-- C3 counterexample: `check_reservoir_consistency` on a frame without the
`embalse_porcentaje` column raises a `KeyError` instead of returning an empty
violation mapping. -/
theorem c3_counterexample :
    check_reservoir_consistency c3ExRFrame =
      Except.error "KeyError: embalse_porcentaje" := rfl

/-- C3 amended: `validate_weather_consistency` degrades gracefully, omitting
each rule whose column group is absent, but `check_reservoir_consistency`
raises a `KeyError` whenever the storage-percentage column is absent. -/
theorem c3_graceful_weather_raising_reservoir :
    (∀ w : WFrame, w.hasTempCols = false →
      (validate_weather_consistency w).lookup "temperature_order" = none) ∧
    (∀ w : WFrame, w.hasHumCols = false →
      (validate_weather_consistency w).lookup "humidity_order" = none) ∧
    (∀ w : WFrame, w.hasWindCols = false →
      (validate_weather_consistency w).lookup "wind_speed_order" = none) ∧
    (∀ r : RFrame, r.hasPct = false →
      check_reservoir_consistency r = Except.error "KeyError: embalse_porcentaje") := by
  refine ⟨?_, ?_, ?_, ?_⟩
  · rintro ⟨rows, ht, hh, hw⟩ h
    subst h
    cases hh <;> cases hw <;> simp [validate_weather_consistency, List.lookup]
  · rintro ⟨rows, ht, hh, hw⟩ h
    subst h
    cases ht <;> cases hw <;> simp [validate_weather_consistency, List.lookup]
  · rintro ⟨rows, ht, hh, hw⟩ h
    subst h
    cases ht <;> cases hh <;> simp [validate_weather_consistency, List.lookup]
  · rintro ⟨rows, hp, hc, hd⟩ h
    subst h
    simp [check_reservoir_consistency]

/-- C3 witness: the amended statement evaluated on concrete frames with the
columns absent. -/
theorem c3_witness :
    (c3ExWFrame.hasTempCols = false ∧
      (validate_weather_consistency c3ExWFrame).lookup "temperature_order" = none) ∧
    (c3ExRFrame.hasPct = false ∧
      check_reservoir_consistency c3ExRFrame =
        Except.error "KeyError: embalse_porcentaje") :=
  ⟨⟨rfl, c3_graceful_weather_raising_reservoir.1 c3ExWFrame rfl⟩,
   ⟨rfl, c3_graceful_weather_raising_reservoir.2.2.2 c3ExRFrame rfl⟩⟩

/-- C4 counterexample: with the unknown method string "polynomial" (which the
source's own docstring advertises), `handle_missing_values` returns the frame
unchanged and `trend_analysis` returns the empty result dictionary; neither
surfaces an error. -/
theorem c4_counterexample :
    handle_missing_values c4ExFrame "polynomial" = Except.ok c4ExFrame ∧
    trend_analysis c4ExRows "polynomial" = Except.ok TrendOut.empty :=
  ⟨rfl, rfl⟩

/-- C4 amended: an unrecognized strategy or method name is silently ignored:
`handle_missing_values` returns the dataset unchanged and `trend_analysis`
returns an empty result; no hard failure reaches the caller. -/
theorem c4_unknown_silently_ignored (df : CFrame) (rows : AFrame) (s m : String)
    (hs1 : s ≠ "interpolate") (hs2 : s ≠ "forward_fill") (hs3 : s ≠ "drop")
    (hm1 : m ≠ "linear") (hm2 : m ≠ "mann_kendall") :
    handle_missing_values df s = Except.ok df ∧
    trend_analysis rows m = Except.ok TrendOut.empty := by
  constructor
  · simp [handle_missing_values, hs1, hs2, hs3]
  · simp [trend_analysis, hm1, hm2]

/-- C4 witness: the amended statement evaluated at the strategy and method
string "polynomial". -/
theorem c4_witness :
    ("polynomial" ≠ "interpolate" ∧ "polynomial" ≠ "linear") ∧
    handle_missing_values c4ExFrame "polynomial" = Except.ok c4ExFrame ∧
    trend_analysis c4ExRows "polynomial" = Except.ok TrendOut.empty :=
  ⟨⟨by decide, by decide⟩,
   c4_unknown_silently_ignored c4ExFrame c4ExRows "polynomial" "polynomial"
     (by decide) (by decide) (by decide) (by decide) (by decide)⟩

/-- C9: on the dataset (day 0, 1), (day 1, missing), (day 2, 3), the `linear`
branch hands `linregress` the full-length time index [0, 1, 2] and the
two-element dropped-missing value series [1, 3]; the misaligned operands make
`linregress` fail, whereas the specified regression over the properly paired
retained rows (0, 1) and (2, 3) yields slope 1 and intercept 1. -/
theorem c9_linear_misaligned_fails :
    trend_analysis c9ExRows "linear" =
      Except.error "operands could not be broadcast together" ∧
    linearTrendSpec c9ExRows = Except.ok (1, 1) := by
  refine ⟨rfl, ?_⟩
  simp [linearTrendSpec, linregress, sortByDate, seriesMin, c9ExRows,
    List.insertionSort, List.orderedInsert]
  norm_num

theorem roundHalfEven_intCast (n : ℤ) : roundHalfEven ((n : ℤ) : ℚ) = n := by
  simp only [roundHalfEven, Int.floor_intCast, sub_self]
  norm_num

theorem roundTo_roundTo (d : ℕ) (x : ℚ) : roundTo d (roundTo d x) = roundTo d x := by
  have h10 : ((10 : ℚ)) ^ d ≠ 0 := by positivity
  unfold roundTo
  rw [div_mul_cancel₀ _ h10, roundHalfEven_intCast]

theorem cleanColumn_cleanColumn (c : String × List (Option ℚ)) :
    cleanColumn (cleanColumn c) = cleanColumn c := by
  by_cases h : c.1 ∈ numericColumns
  · cases hp : roundPrecision c.1 with
    | none => simp [cleanColumn, h, hp]
    | some d =>
      have hone : ∀ l : List (Option ℚ),
          (l.map (Option.map (roundTo d))).map (Option.map (roundTo d))
            = l.map (Option.map (roundTo d)) := by
        intro l
        rw [List.map_map]
        exact List.map_congr_left
          (fun a _ => by cases a <;> simp [Function.comp, roundTo_roundTo])
      have step1 : cleanColumn c = (c.1, c.2.map (Option.map (roundTo d))) := by
        simp [cleanColumn, h, hp]
      have step2 : cleanColumn (c.1, c.2.map (Option.map (roundTo d)))
          = (c.1, (c.2.map (Option.map (roundTo d))).map (Option.map (roundTo d))) := by
        simp [cleanColumn, h, hp]
      rw [step1, step2, hone]
  · simp [cleanColumn, h]

/-- C6: per-field rounding is idempotent: every precision rule's rounding step
returns an already-rounded value unchanged, and running
`clean_numeric_columns` twice equals running it once. -/
theorem c6_rounding_idempotent :
    (∀ (d : ℕ) (x : ℚ), roundTo d (roundTo d x) = roundTo d x) ∧
    (∀ df : CFrame, clean_numeric_columns (clean_numeric_columns df) = clean_numeric_columns df) := by
  refine ⟨roundTo_roundTo, ?_⟩
  intro df
  have hmm : (df.numCols.map cleanColumn).map cleanColumn = df.numCols.map cleanColumn := by
    rw [List.map_map]
    exact List.map_congr_left (fun c _ => by simp [Function.comp, cleanColumn_cleanColumn])
  show (⟨df.codes, df.dates, (df.numCols.map cleanColumn).map cleanColumn⟩ : CFrame)
      = ⟨df.codes, df.dates, df.numCols.map cleanColumn⟩
  rw [hmm]

theorem dropDupsGo_sublist (l : List RRow) : ∀ seen, (dropDupsGo seen l).Sublist l := by
  induction l with
  | nil => intro seen; simp [dropDupsGo]
  | cons r rs ih =>
    intro seen
    by_cases h : rkey r ∈ seen
    · rw [dropDupsGo, if_pos h]
      exact (ih seen).cons r
    · rw [dropDupsGo, if_neg h]
      exact (ih _).cons₂ r

theorem dropDupsGo_mem (l : List RRow) :
    ∀ seen r, r ∈ dropDupsGo seen l →
      rkey r ∉ seen ∧ l.find? (fun s => rkey s == rkey r) = some r := by
  induction l with
  | nil => intro seen r h; simp [dropDupsGo] at h
  | cons r0 rs ih =>
    intro seen r h
    by_cases h0 : rkey r0 ∈ seen
    · rw [dropDupsGo, if_pos h0] at h
      obtain ⟨hns, hf⟩ := ih seen r h
      have hne : (rkey r0 == rkey r) = false := by
        simp only [beq_eq_false_iff_ne, ne_eq]
        intro he; exact hns (he ▸ h0)
      refine ⟨hns, ?_⟩
      rw [List.find?_cons, hne, hf]
    · rw [dropDupsGo, if_neg h0] at h
      rcases List.mem_cons.mp h with rfl | hmem
      · refine ⟨h0, ?_⟩
        rw [List.find?_cons]
        simp
      · obtain ⟨hns, hf⟩ := ih _ r hmem
        have hne : rkey r ≠ rkey r0 := by
          intro he; exact hns (by simp [he])
        have hne' : (rkey r0 == rkey r) = false := by
          simp only [beq_eq_false_iff_ne, ne_eq]
          exact fun he => hne he.symm
        refine ⟨fun hs => hns (List.mem_cons_of_mem _ hs), ?_⟩
        rw [List.find?_cons, hne', hf]

theorem dropDupsGo_keys_nodup (l : List RRow) :
    ∀ seen, ((dropDupsGo seen l).map rkey).Nodup := by
  induction l with
  | nil => intro seen; simp [dropDupsGo]
  | cons r0 rs ih =>
    intro seen
    by_cases h0 : rkey r0 ∈ seen
    · rw [dropDupsGo, if_pos h0]; exact ih seen
    · rw [dropDupsGo, if_neg h0]
      simp only [List.map_cons, List.nodup_cons]
      refine ⟨?_, ih _⟩
      intro hmem
      obtain ⟨s, hs, hks⟩ := List.mem_map.mp hmem
      exact (dropDupsGo_mem rs _ s hs).1 (by simp [hks])

theorem dropDupsGo_length (l : List RRow) :
    ∀ seen : List (ℤ × String),
      (dropDupsGo seen l).length = ((l.map rkey).toFinset \ seen.toFinset).card := by
  induction l with
  | nil => intro seen; simp [dropDupsGo]
  | cons r0 rs ih =>
    intro seen
    by_cases h0 : rkey r0 ∈ seen
    · rw [dropDupsGo, if_pos h0, ih seen]
      congr 1
      simp only [List.map_cons, List.toFinset_cons]
      rw [Finset.insert_sdiff_of_mem _ (List.mem_toFinset.mpr h0)]
    · rw [dropDupsGo, if_neg h0]
      simp only [List.length_cons, ih (rkey r0 :: seen)]
      have hset : ((r0 :: rs).map rkey).toFinset \ seen.toFinset
          = insert (rkey r0) ((rs.map rkey).toFinset \ ((rkey r0 :: seen).toFinset)) := by
        ext x
        by_cases hx : x = rkey r0 <;>
          simp [List.toFinset_cons, Finset.mem_sdiff, Finset.mem_insert, hx, h0]
      rw [hset, Finset.card_insert_of_not_mem (by simp)]

theorem dropDupsGo_covers (l : List RRow) :
    ∀ seen r, r ∈ l → rkey r ∉ seen →
      ∃ s, s ∈ dropDupsGo seen l ∧ rkey s = rkey r := by
  induction l with
  | nil => intro seen r h; simp at h
  | cons r0 rs ih =>
    intro seen r hr hns
    by_cases h0 : rkey r0 ∈ seen
    · rw [dropDupsGo, if_pos h0]
      rcases List.mem_cons.mp hr with rfl | hmem
      · exact absurd h0 hns
      · exact ih seen r hmem hns
    · rw [dropDupsGo, if_neg h0]
      rcases List.mem_cons.mp hr with rfl | hmem
      · exact ⟨r, List.mem_cons_self _ _, rfl⟩
      · by_cases hk : rkey r = rkey r0
        · exact ⟨r0, List.mem_cons_self _ _, hk.symm⟩
        · obtain ⟨s, hs, hks⟩ := ih (rkey r0 :: seen) r hmem (by simp [hk, hns])
          exact ⟨s, List.mem_cons_of_mem _ hs, hks⟩

/-- C7: duplicate removal keeps exactly the first occurrence (in input order)
of each (date, entity) key with its values intact: the output is a sublist of
the input, its keys are pairwise distinct, its row count is the number of
distinct keys (input count minus the duplicates beyond the first, per key),
every surviving row is literally the first input row bearing its key, and
every input key survives. -/
theorem c7_remove_duplicates_keeps_first (rows : List RRow) :
    (remove_duplicates rows).Sublist rows ∧
    ((remove_duplicates rows).map rkey).Nodup ∧
    (remove_duplicates rows).length = (rows.map rkey).toFinset.card ∧
    (∀ r, r ∈ remove_duplicates rows →
      rows.find? (fun s => rkey s == rkey r) = some r) ∧
    (∀ r, r ∈ rows → ∃ s, s ∈ remove_duplicates rows ∧ rkey s = rkey r) := by
  refine ⟨dropDupsGo_sublist rows [], dropDupsGo_keys_nodup rows [], ?_, ?_, ?_⟩
  · rw [remove_duplicates, dropDupsGo_length rows []]; simp
  · intro r h; exact (dropDupsGo_mem rows [] r h).2
  · intro r h; exact dropDupsGo_covers rows [] r h (by simp)

/-- C7 witness: on three rows whose first two share the (entity, date) key,
the kept row is the first one, values intact. -/
theorem c7_witness :
    ((⟨0, "A", 5, some 10⟩ : RRow) ∈ remove_duplicates c7ExRows) ∧
    c7ExRows.find? (fun s => rkey s == rkey ⟨0, "A", 5, some 10⟩) =
      some ⟨0, "A", 5, some 10⟩ ∧
    (remove_duplicates c7ExRows).length = (c7ExRows.map rkey).toFinset.card :=
  ⟨by decide,
   (c7_remove_duplicates_keeps_first c7ExRows).2.2.2.1 _ (by decide),
   (c7_remove_duplicates_keeps_first c7ExRows).2.2.1⟩

theorem withDiff_some (l : List RRow) :
    ∀ (prev : Option RRow) (r : RRow) (d : ℚ),
      (r, some d) ∈ withDiff prev l →
      (∃ p, prev = some p ∧ l.head? = some r ∧ p.codigo = r.codigo ∧
        ∃ a b, p.pct = some a ∧ r.pct = some b ∧ d = b - a) ∨
      (∃ l1 l2 p, l = l1 ++ p :: r :: l2 ∧ p.codigo = r.codigo ∧
        ∃ a b, p.pct = some a ∧ r.pct = some b ∧ d = b - a) := by
  induction l with
  | nil => intro prev r d h; simp [withDiff] at h
  | cons r0 rs ih =>
    intro prev r d h
    simp only [withDiff] at h
    rcases List.mem_cons.mp h with heq | hmem
    · rw [Prod.mk.injEq] at heq
      obtain ⟨hr, hd⟩ := heq
      subst hr
      cases prev with
      | none => simp at hd
      | some p =>
        by_cases hc : p.codigo = r.codigo
        · cases hpa : p.pct with
          | none => simp [hc, hpa] at hd
          | some a =>
            cases hrb : r.pct with
            | none => simp [hc, hpa, hrb] at hd
            | some b =>
              simp only [hc, hpa, hrb, if_pos, Option.some.injEq] at hd
              refine Or.inl ⟨p, rfl, rfl, hc, a, b, hpa, rfl, ?_⟩
              simpa using hd
        · simp [hc] at hd
    · rcases ih (some r0) r d hmem with
        ⟨p, hp, hhead, hcod, a, b, hpa, hrb, hd⟩ | ⟨l1, l2, p, hl, hcod, rest⟩
      · have hpr : p = r0 := by injection hp; simp [*]
        subst hpr
        cases rs with
        | nil => simp at hhead
        | cons r1 rs' =>
          have hr1 : r1 = r := by simpa using hhead
          subst hr1
          exact Or.inr ⟨[], rs', p, rfl, hcod, a, b, hpa, hrb, hd⟩
      · exact Or.inr ⟨r0 :: l1, l2, p, by rw [hl]; rfl, hcod, rest⟩

/-- C10: every row label in the `extreme_percentage_changes` list belongs to a
row that is directly preceded, in the (entity, date)-sorted order, by a row of
the same entity with a non-missing percentage (as is the flagged row's own),
whose difference exceeds 20 in absolute value; in particular the first row of
an entity's sub-sequence, whose `groupby(...).diff()` value is missing, is
never flagged, a missing difference never satisfying the comparison. -/
theorem c10_extreme_changes_have_predecessor (rows : List RRow) (rid : ℕ)
    (h : rid ∈ extremeChanges rows) :
    ∃ l1 l2 p r, sortRC rows = l1 ++ p :: r :: l2 ∧ r.idx = rid ∧
      p.codigo = r.codigo ∧
      ∃ a b, p.pct = some a ∧ r.pct = some b ∧ 20 < |b - a| := by
  unfold extremeChanges at h
  obtain ⟨pr, hmem, hidx⟩ := List.mem_map.mp h
  obtain ⟨hin, hpred⟩ := List.mem_filter.mp hmem
  obtain ⟨r, dv⟩ := pr
  cases dv with
  | none => simp at hpred
  | some dq =>
    have habs : 20 < |dq| := by simpa using hpred
    rcases withDiff_some (sortRC rows) none r dq hin with
      ⟨p, hp, _⟩ | ⟨l1, l2, p, hl, hcod, a, b, hpa, hrb, hd⟩
    · exact absurd hp (by simp)
    · exact ⟨l1, l2, p, r, hl, hidx, hcod, a, b, hpa, hrb, hd ▸ habs⟩

/-- C10 witness: on the two-row entity A with a 50-point jump, row 1 is
flagged and indeed has a same-entity predecessor in sorted order. -/
theorem c10_witness :
    1 ∈ extremeChanges c10ExRows ∧
    (∃ l1 l2 p r, sortRC c10ExRows = l1 ++ p :: r :: l2 ∧ r.idx = 1 ∧
      p.codigo = r.codigo ∧
      ∃ a b, p.pct = some a ∧ r.pct = some b ∧ 20 < |b - a|) := by
  have hmem : 1 ∈ extremeChanges c10ExRows := by
    simp [extremeChanges, withDiff, sortRC, List.insertionSort, List.orderedInsert, c10ExRows]
    exact ⟨⟨1, "A", 1, some 60⟩, ⟨some (60 - 10), ⟨rfl, rfl⟩, by norm_num⟩, rfl⟩
  exact ⟨hmem, c10_extreme_changes_have_predecessor c10ExRows 1 hmem⟩

theorem foldl_add_int {α : Type} (f : α → ℤ) :
    ∀ (l : List α) (init : ℤ), l.foldl (fun s a => s + f a) init = init + (l.map f).sum := by
  intro l
  induction l with
  | nil => intro init; simp
  | cons a l ih => intro init; simp [List.foldl_cons, ih, add_assoc]

theorem range_map_sum (g : ℕ → ℤ) :
    ∀ m, ((List.range m).map g).sum = ∑ i in Finset.range m, g i := by
  intro m
  induction m with
  | zero => simp
  | succ m ih => rw [List.range_succ]; simp [ih, Finset.sum_range_succ]

theorem range'_map_sum (g : ℕ → ℤ) (a b : ℕ) :
    ((List.range' a b).map g).sum = ∑ j in Finset.Ico a (a + b), g j := by
  rw [List.range'_eq_map_range, List.map_map, Finset.sum_Ico_eq_sum_range]
  have h1 : a + b - a = b := by omega
  rw [h1]
  exact range_map_sum (fun k => g (a + k)) b

theorem mkS_eq_pairSum (values : List ℚ) :
    mkS values = ∑ i in Finset.range values.length,
      ∑ j in Finset.Ico (i + 1) values.length,
        qsign (values.getD j 0 - values.getD i 0) := by
  unfold mkS
  have hstep : (fun (S : ℤ) (i : ℕ) =>
      (List.range' (i + 1) (values.length - (i + 1))).foldl
        (fun S j => S + qsign (values.getD j 0 - values.getD i 0)) S)
      = fun S i => S + ((List.range' (i + 1) (values.length - (i + 1))).map
          (fun j => qsign (values.getD j 0 - values.getD i 0))).sum := by
    funext S i
    exact foldl_add_int _ _ S
  rw [hstep, foldl_add_int, zero_add, range_map_sum]
  have hinner : ∀ i ∈ Finset.range (values.length - 1),
      ((List.range' (i + 1) (values.length - (i + 1))).map
        (fun j => qsign (values.getD j 0 - values.getD i 0))).sum
      = ∑ j in Finset.Ico (i + 1) values.length,
          qsign (values.getD j 0 - values.getD i 0) := by
    intro i hi
    rw [range'_map_sum]
    have : i + 1 + (values.length - (i + 1)) = values.length := by
      have := Finset.mem_range.mp hi; omega
    rw [this]
  rw [Finset.sum_congr rfl hinner]
  rcases Nat.eq_zero_or_pos values.length with h0 | hpos
  · simp [h0]
  · obtain ⟨m, hm⟩ : ∃ m, values.length = m + 1 := ⟨values.length - 1, by omega⟩
    rw [hm]
    have hm1 : m + 1 - 1 = m := by omega
    rw [hm1, Finset.sum_range_succ]
    simp

/-- C5: the Mann-Kendall branch returns `S` equal to the sum over all pairs
`i < j` of `sign(x_j - x_i)`, the variance `n(n-1)(2n+5)/18` with no tie
correction, the `z` statistic `(S-1)/sqrt(Var)` for `S > 0`, `(S+1)/sqrt(Var)`
for `S < 0` and `0` for `S = 0`, and the trend label "increasing" iff `S > 0`,
"decreasing" iff `S < 0`, else "no trend"; in particular on `[1, 2, 3, 4, 5]`
it returns `S = 10` with label "increasing". -/
theorem c5_mann_kendall (values : List ℚ) :
    mkS values = (∑ i in Finset.range values.length,
      ∑ j in Finset.Ico (i + 1) values.length,
        qsign (values.getD j 0 - values.getD i 0)) ∧
    mkVarS values.length =
      (values.length : ℚ) * ((values.length : ℚ) - 1) * (2 * (values.length : ℚ) + 5) / 18 ∧
    (mkTrend values = "increasing" ↔ 0 < mkS values) ∧
    (mkTrend values = "decreasing" ↔ mkS values < 0) ∧
    (mkTrend values = "no trend" ↔ mkS values = 0) ∧
    (0 < mkS values →
      ((mkZnum (mkS values) : ℝ) / Real.sqrt ((mkVarS values.length : ℚ) : ℝ) =
        ((mkS values : ℝ) - 1) / Real.sqrt ((mkVarS values.length : ℚ) : ℝ))) ∧
    (mkS values < 0 →
      ((mkZnum (mkS values) : ℝ) / Real.sqrt ((mkVarS values.length : ℚ) : ℝ) =
        ((mkS values : ℝ) + 1) / Real.sqrt ((mkVarS values.length : ℚ) : ℝ))) ∧
    (mkS values = 0 → mkZnum (mkS values) = 0) ∧
    mkS [(1 : ℚ), 2, 3, 4, 5] = 10 ∧ mkTrend [(1 : ℚ), 2, 3, 4, 5] = "increasing" := by
  have hconc : mkS [(1 : ℚ), 2, 3, 4, 5] = 10 := by with_unfolding_all decide
  refine ⟨mkS_eq_pairSum values, rfl, ?_, ?_, ?_, ?_, ?_, ?_, hconc, ?_⟩
  · unfold mkTrend
    split_ifs with h1 h2
    · exact iff_of_true rfl h1
    · exact iff_of_false (by decide) h1
    · exact iff_of_false (by decide) h1
  · unfold mkTrend
    split_ifs with h1 h2
    · exact iff_of_false (by decide) (by omega)
    · exact iff_of_true rfl h2
    · exact iff_of_false (by decide) h2
  · unfold mkTrend
    split_ifs with h1 h2
    · exact iff_of_false (by decide) (by omega)
    · exact iff_of_false (by decide) (by omega)
    · exact iff_of_true rfl (by omega)
  · intro h
    rw [mkZnum, if_pos h]
    push_cast
    ring
  · intro h
    rw [mkZnum, if_neg (by omega), if_pos h]
    push_cast
    ring
  · intro h
    rw [mkZnum, if_neg (by omega), if_neg (by omega)]
  · unfold mkTrend
    rw [hconc]
    norm_num


/-- C5 witness: the `z`-statistic case split instantiated on the strictly
increasing input, whose `S = 10` is positive. -/
theorem c5_witness :
    0 < mkS [(1 : ℚ), 2, 3, 4, 5] ∧
    ((mkZnum (mkS [(1 : ℚ), 2, 3, 4, 5]) : ℝ) /
        Real.sqrt ((mkVarS ([(1 : ℚ), 2, 3, 4, 5].length) : ℚ) : ℝ) =
      ((mkS [(1 : ℚ), 2, 3, 4, 5] : ℝ) - 1) /
        Real.sqrt ((mkVarS ([(1 : ℚ), 2, 3, 4, 5].length) : ℚ) : ℝ)) :=
  ⟨by with_unfolding_all decide,
   (c5_mann_kendall [(1 : ℚ), 2, 3, 4, 5]).2.2.2.2.2.1 (by with_unfolding_all decide)⟩

theorem getD_default_irrel (l : List ℚ) (m : ℕ) (d e : ℚ) (h : m < l.length) :
    l.getD m d = l.getD m e := by
  rw [List.getD_eq_getElem l d h, List.getD_eq_getElem l e h]

theorem sorted_getD_le (l : List ℚ) (hs : l.Sorted (· ≤ ·)) {a b : ℕ}
    (hab : a ≤ b) (hb : b < l.length) : l.getD a 0 ≤ l.getD b 0 := by
  have ha : a < l.length := lt_of_le_of_lt hab hb
  rw [List.getD_eq_getElem l 0 ha, List.getD_eq_getElem l 0 hb]
  have := hs.rel_get_of_le (Fin.mk_le_mk.mpr hab : (⟨a, ha⟩ : Fin l.length) ≤ ⟨b, hb⟩)
  simpa using this

theorem quantileLinear_mono (l : List ℚ) (hs : l.Sorted (· ≤ ·))
    (q1 q2 : ℚ) (hq0 : 0 ≤ q1) (hq12 : q1 ≤ q2) (hq1 : q2 ≤ 1) :
    quantileLinear l q1 ≤ quantileLinear l q2 := by
  rcases Nat.eq_zero_or_pos l.length with hn0 | hnpos
  · have hl : l = [] := List.length_eq_zero.mp hn0
    subst hl
    simp [quantileLinear]
  · have hn1 : (0 : ℚ) ≤ (l.length : ℚ) - 1 := by
      have : (1 : ℚ) ≤ (l.length : ℚ) := by exact_mod_cast hnpos
      linarith
    set h1 := q1 * ((l.length : ℚ) - 1) with hh1
    set h2 := q2 * ((l.length : ℚ) - 1) with hh2
    have h12 : h1 ≤ h2 := mul_le_mul_of_nonneg_right hq12 hn1
    have h10 : 0 ≤ h1 := mul_nonneg hq0 hn1
    have h2top : h2 ≤ (l.length : ℚ) - 1 := by
      calc h2 ≤ 1 * ((l.length : ℚ) - 1) := mul_le_mul_of_nonneg_right hq1 hn1
      _ = (l.length : ℚ) - 1 := one_mul _
    have hf1 : (0 : ℤ) ≤ Int.floor h1 := Int.le_floor.mpr (by exact_mod_cast h10)
    have hf2 : (0 : ℤ) ≤ Int.floor h2 := le_trans hf1 (Int.floor_le_floor h12)
    have hfloor2 : Int.floor h2 ≤ (l.length : ℤ) - 1 := by
      have hcast : ((l.length : ℚ) - 1 : ℚ) = (((l.length : ℤ) - 1 : ℤ) : ℚ) := by push_cast; ring
      have := Int.floor_le_floor h2top
      rwa [hcast, Int.floor_intCast] at this
    set i1 := (Int.floor h1).toNat with hi1def
    set i2 := (Int.floor h2).toNat with hi2def
    have hi1z : (i1 : ℤ) = Int.floor h1 := Int.toNat_of_nonneg hf1
    have hi2z : (i2 : ℤ) = Int.floor h2 := Int.toNat_of_nonneg hf2
    have hi12 : i1 ≤ i2 := Int.toNat_le_toNat (Int.floor_le_floor h12)
    have hi2n : i2 < l.length := by omega
    have hfr1a : 0 ≤ h1 - Int.floor h1 := by have := Int.floor_le h1; linarith
    have hfr1b : h1 - Int.floor h1 < 1 := by have := Int.lt_floor_add_one h1; linarith
    have hfr2a : 0 ≤ h2 - Int.floor h2 := by have := Int.floor_le h2; linarith
    show l.getD i1 0 + (h1 - Int.floor h1) * (l.getD (i1 + 1) (l.getD i1 0) - l.getD i1 0)
        ≤ l.getD i2 0 + (h2 - Int.floor h2) * (l.getD (i2 + 1) (l.getD i2 0) - l.getD i2 0)
    rcases eq_or_lt_of_le hi12 with heq | hlt
    · have hfeq : Int.floor h1 = Int.floor h2 := by omega
      rw [← heq, ← hfeq]
      by_cases hrange : i1 + 1 < l.length
      · have hvv : l.getD i1 0 ≤ l.getD (i1 + 1) (l.getD i1 0) := by
          rw [getD_default_irrel l (i1 + 1) (l.getD i1 0) 0 hrange]
          exact sorted_getD_le l hs (Nat.le_succ i1) hrange
        have hfr12 : h1 - Int.floor h1 ≤ h2 - Int.floor h1 := by linarith
        nlinarith [mul_le_mul_of_nonneg_right hfr12 (sub_nonneg.mpr hvv)]
      · have hdef : l.getD (i1 + 1) (l.getD i1 0) = l.getD i1 0 :=
          List.getD_eq_default l _ (not_lt.mp hrange)
        rw [hdef]
        simp
    · have hi11n : i1 + 1 < l.length := lt_of_le_of_lt (Nat.succ_le_of_lt hlt) hi2n
      have hv1 : l.getD i1 0 ≤ l.getD (i1 + 1) 0 := sorted_getD_le l hs (Nat.le_succ i1) hi11n
      have hQ1 : l.getD i1 0 + (h1 - Int.floor h1) * (l.getD (i1 + 1) (l.getD i1 0) - l.getD i1 0)
          ≤ l.getD (i1 + 1) 0 := by
        rw [getD_default_irrel l (i1 + 1) (l.getD i1 0) 0 hi11n]
        nlinarith [hfr1a, hfr1b, hv1]
      have hmid : l.getD (i1 + 1) 0 ≤ l.getD i2 0 :=
        sorted_getD_le l hs (Nat.succ_le_of_lt hlt) hi2n
      have hQ2 : l.getD i2 0
          ≤ l.getD i2 0 + (h2 - Int.floor h2) * (l.getD (i2 + 1) (l.getD i2 0) - l.getD i2 0) := by
        by_cases hr2 : i2 + 1 < l.length
        · have hv2 : l.getD i2 0 ≤ l.getD (i2 + 1) 0 := sorted_getD_le l hs (Nat.le_succ i2) hr2
          rw [getD_default_irrel l (i2 + 1) (l.getD i2 0) 0 hr2]
          nlinarith [hfr2a, hv2]
        · have hdef : l.getD (i2 + 1) (l.getD i2 0) = l.getD i2 0 :=
            List.getD_eq_default l _ (not_lt.mp hr2)
          rw [hdef]
          simp
      linarith [hQ1, hmid, hQ2]

theorem eThreshold_mono (rows : EFrame) (p1 p2 : ℚ)
    (h0 : 0 ≤ p1) (h12 : p1 ≤ p2) (h100 : p2 ≤ 100) :
    eThreshold rows p1 ≤ eThreshold rows p2 := by
  unfold eThreshold
  apply quantileLinear_mono
  · exact List.sorted_insertionSort _ _
  · exact div_nonneg h0 (by norm_num)
  · linarith
  · linarith

/-- C8: a row is classified extreme exactly when its value is strictly
greater than the percentile threshold of the variable's distribution, and the
extreme-event count is non-increasing in the percentile: for percentiles
`p1 <= p2` (within [0, 100]) the count at `p2` is at most the count at `p1`. -/
theorem c8_extreme_events_monotone (rows : EFrame) (p1 p2 : ℚ)
    (h0 : 0 ≤ p1) (h12 : p1 ≤ p2) (h100 : p2 ≤ 100) :
    (∀ (p : ℚ) (r : ℕ × Option ℚ), r ∈ extreme_events rows p ↔
      r ∈ rows ∧ ∃ v, r.2 = some v ∧ eThreshold rows p < v) ∧
    num_extreme_events rows p2 ≤ num_extreme_events rows p1 := by
  constructor
  · intro p r
    unfold extreme_events
    rw [List.mem_filter]
    constructor
    · rintro ⟨hin, hp⟩
      refine ⟨hin, ?_⟩
      cases hr : r.2 with
      | none => rw [hr] at hp; simp at hp
      | some v => rw [hr] at hp; exact ⟨v, rfl, by simpa using hp⟩
    · rintro ⟨hin, v, hv, hlt⟩
      exact ⟨hin, by rw [hv]; simpa using hlt⟩
  · have hth := eThreshold_mono rows p1 p2 h0 h12 h100
    unfold num_extreme_events extreme_events
    apply List.Sublist.length_le
    apply List.monotone_filter_right
    intro a hpa
    cases hv : a.2 with
    | none => rw [hv] at hpa; simp at hpa
    | some v =>
      rw [hv] at hpa
      simp only [decide_eq_true_eq] at hpa ⊢
      exact lt_of_le_of_lt hth hpa

/-- C8 witness: on the sample [1, 2, 3, 4, 100] the count at the 95th
percentile (1 event) is at most the count at the 50th (2 events). -/
theorem c8_witness :
    ((0 : ℚ) ≤ 50 ∧ (50 : ℚ) ≤ 95 ∧ (95 : ℚ) ≤ 100) ∧
    num_extreme_events c8ExRows 50 = 2 ∧
    num_extreme_events c8ExRows 95 = 1 ∧
    num_extreme_events c8ExRows 95 ≤ num_extreme_events c8ExRows 50 :=
  ⟨⟨by norm_num, by norm_num, by norm_num⟩,
   by with_unfolding_all decide,
   by with_unfolding_all decide,
   (c8_extreme_events_monotone c8ExRows 50 95 (by norm_num) (by norm_num) (by norm_num)).2⟩

end MalagaReservoirs
